import Mathlib

/-!
Verification of the ioc jail/dataset orchestration layer.

Shallow embedding of the repository's core operations:
* the resource-limit string grammar (`_parse_resource_limit`, `__str__`),
* the snapshot timestamp helper (`append_snapshot_datetime`),
* the dataset tree operations (`delete_dataset_recursive`, `clone_dataset`,
  `promote_dataset`),
* the legacy-jail migration batch driver (`_migrate_jails`).

Strings from the Python code are modelled as `List Char` where character-level
reasoning is needed, and as `String` elsewhere.  External collaborators
(libzfs, the jail control service) are modelled at their interface boundary:
dataset-mutating calls are recorded in an explicit action trace.
-/

namespace Ioc

/- ### Resource limit grammar
Model of `ResourceLimitValue._parse_resource_limit` and
`ResourceLimitValue.__str__` from
`src/iocage/lib/Config/Jail/Properties/ResourceLimit.py`. -/

/-- The `ValueError` outcomes of `_parse_resource_limit`: a tuple-unpacking
mismatch when `_rest.split("/", maxsplit=1)` yields fewer than two parts, and
the explicit `value may not be empty` check.  The spec's `InvalidSyntax`
taxon covers both. -/
inductive RLError where
  | unpackMismatch : RLError
  | valueEmpty : RLError
deriving DecidableEq

/-- The normalized `(amount, action, per)` triple of a resource limit. -/
structure RLValue where
  amount : List Char
  action : List Char
  per : List Char
deriving DecidableEq

/-- Python `s.split(sep, maxsplit=1)` when it produces two parts: splits at
the first occurrence of `sep`; `none` when `sep` does not occur. -/
def splitOnce (s : List Char) (sep : Char) : Option (List Char × List Char) :=
  match s with
  | [] => none
  | c :: rest =>
    if c = sep then some ([], rest)
    else
      match splitOnce rest sep with
      | none => none
      | some (a, b) => some (c :: a, b)

/-- Grammar auto-detection phase of `_parse_resource_limit`: simplified when
neither `=` nor `:` occurs, rctl syntax when `=` occurs, legacy otherwise. -/
def rlDetect (s : List Char) : Except RLError RLValue :=
  if ('=' ∉ s) ∧ (':' ∉ s) then
    Except.ok ⟨s, "deny".data, "jail".data⟩
  else if '=' ∈ s then
    match splitOnce s '=' with
    | none => Except.error RLError.unpackMismatch
    | some (action, rest) =>
      match splitOnce rest '/' with
      | none => Except.error RLError.unpackMismatch
      | some (amount, per) => Except.ok ⟨amount, action, per⟩
  else
    match splitOnce s ':' with
    | none => Except.error RLError.unpackMismatch
    | some (amount, action) => Except.ok ⟨amount, action, "jail".data⟩

/-- Final phase of `_parse_resource_limit`: the
`(amount == "") or (action == "") or (per == "")` check. -/
def rlCheckEmpty (r : Except RLError RLValue) : Except RLError RLValue :=
  match r with
  | Except.error e => Except.error e
  | Except.ok v =>
    if v.amount = [] ∨ v.action = [] ∨ v.per = [] then Except.error RLError.valueEmpty
    else Except.ok v

/-- Model of `ResourceLimitValue._parse_resource_limit`: grammar auto-detection by
presence of `=` or `:`, followed by the non-empty check on all three parts. -/
def _parse_resource_limit (s : List Char) : Except RLError RLValue :=
  rlCheckEmpty (rlDetect s)

/-- Model of `ResourceLimitValue.__str__`: legacy `amount:action` form when `per` is
`"jail"`, otherwise the full `action=amount/per` form (`limit_string`). -/
def serializeRL (v : RLValue) : List Char :=
  if v.per = "jail".data then v.amount ++ ':' :: v.action
  else v.action ++ '=' :: v.amount ++ '/' :: v.per

theorem splitOnce_eq (a b : List Char) (sep : Char) (ha : sep ∉ a) :
    splitOnce (a ++ sep :: b) sep = some (a, b) := by
  induction a with
  | nil => simp [splitOnce]
  | cons c rest ih =>
    have hc : ¬ (c = sep) := by
      intro h
      exact ha (by simp [h])
    have hrest : sep ∉ rest := by
      intro h
      exact ha (by simp [h])
    simp [splitOnce, hc, ih hrest]

theorem splitOnce_sound (s a b : List Char) (sep : Char)
    (h : splitOnce s sep = some (a, b)) : s = a ++ sep :: b ∧ sep ∉ a := by
  induction s generalizing a b with
  | nil => simp [splitOnce] at h
  | cons c rest ih =>
    by_cases hc : c = sep
    · simp [splitOnce, hc] at h
      obtain ⟨rfl, rfl⟩ := h
      subst hc
      exact ⟨rfl, by simp⟩
    · simp [splitOnce, hc] at h
      match hs : splitOnce rest sep with
      | none => rw [hs] at h; simp at h
      | some (a2, b2) =>
        rw [hs] at h
        simp at h
        obtain ⟨ha, hb⟩ := h
        obtain ⟨ha2, hb2⟩ := ih a2 b2 hs
        subst hb
        refine ⟨?_, ?_⟩
        · rw [← ha, ha2]
          simp
        · rw [← ha]
          intro hmem
          rcases List.mem_cons.mp hmem with hm | hm
          · exact hc hm.symm
          · exact hb2 hm

theorem splitOnce_isSome (s : List Char) (sep : Char) (h : sep ∈ s) :
    ∃ a b, splitOnce s sep = some (a, b) := by
  induction s with
  | nil => simp at h
  | cons c rest ih =>
    by_cases hc : c = sep
    · exact ⟨[], rest, by simp [splitOnce, hc]⟩
    · have hm : sep ∈ rest := by
        rcases List.mem_cons.mp h with hm | hm
        · exact absurd hm.symm hc
        · exact hm
      obtain ⟨a, b, hab⟩ := ih hm
      exact ⟨c :: a, b, by simp [splitOnce, hc, hab]⟩

/-- C7: the worked examples of the resource-limit parser: `parse("128M")`,
`parse("128M:deny")` and `parse("deny=128M/jail")` all yield the triple
`("128M", "deny", "jail")`, and `parse("")` fails (the empty-part
`ValueError`, reported by the spec as `InvalidSyntax`). -/
theorem parse_resource_limit_examples :
    _parse_resource_limit "128M".data =
      Except.ok ⟨"128M".data, "deny".data, "jail".data⟩
  ∧ _parse_resource_limit "128M:deny".data =
      Except.ok ⟨"128M".data, "deny".data, "jail".data⟩
  ∧ _parse_resource_limit "deny=128M/jail".data =
      Except.ok ⟨"128M".data, "deny".data, "jail".data⟩
  ∧ _parse_resource_limit "".data = Except.error RLError.valueEmpty :=
  ⟨rfl, rfl, rfl, rfl⟩

/-- C8: round-trip of the resource-limit grammar for simplified and legacy
inputs (those containing no rctl `=` delimiter): parsing the serialized form
reproduces the same `(amount, action, per)` triple, and serialization uses
the legacy `amount:action` form exactly when `per` is `"jail"`, the full
`action=amount/per` form otherwise. -/
theorem parse_serialize_roundtrip (s : List Char) (hne : '=' ∉ s) (v : RLValue)
    (hp : _parse_resource_limit s = Except.ok v) :
    _parse_resource_limit (serializeRL v) = Except.ok v
  ∧ (v.per = "jail".data → serializeRL v = v.amount ++ ':' :: v.action)
  ∧ (v.per ≠ "jail".data → serializeRL v = v.action ++ '=' :: v.amount ++ '/' :: v.per) := by
  refine ⟨?_, fun h => by simp [serializeRL, h], fun h => by simp [serializeRL, h]⟩
  by_cases hcolon : ':' ∈ s
  · -- legacy branch: the serialized form is the original string itself
    obtain ⟨a, b, hab⟩ := splitOnce_isSome s ':' hcolon
    have hbranch : rlDetect s = Except.ok ⟨a, b, "jail".data⟩ := by
      rw [rlDetect, if_neg (fun hand => hand.2 hcolon), if_neg hne, hab]
    have hv : v = ⟨a, b, "jail".data⟩ := by
      rw [_parse_resource_limit, hbranch, rlCheckEmpty] at hp
      by_cases hempty : a = [] ∨ b = [] ∨ "jail".data = []
      · rw [if_pos hempty] at hp
        exact absurd hp (by simp)
      · rw [if_neg hempty] at hp
        exact (Except.ok.inj hp).symm
    obtain ⟨hs, _⟩ := splitOnce_sound s a b ':' hab
    have hser : serializeRL v = s := by
      rw [hv, serializeRL, if_pos rfl, hs]
    rw [hser]
    exact hp
  · -- simplified branch
    have hbranch : rlDetect s = Except.ok ⟨s, "deny".data, "jail".data⟩ := by
      rw [rlDetect, if_pos ⟨hne, hcolon⟩]
    have hv : v = ⟨s, "deny".data, "jail".data⟩ := by
      rw [_parse_resource_limit, hbranch, rlCheckEmpty] at hp
      by_cases hempty : s = [] ∨ "deny".data = [] ∨ "jail".data = []
      · rw [if_pos hempty] at hp
        exact absurd hp (by simp)
      · rw [if_neg hempty] at hp
        exact (Except.ok.inj hp).symm
    have hsne : ¬ (s = []) := by
      intro h0
      rw [_parse_resource_limit, hbranch, rlCheckEmpty, if_pos (Or.inl h0)] at hp
      exact absurd hp (by simp)
    have hser : serializeRL v = s ++ ':' :: "deny".data := by
      rw [hv, serializeRL, if_pos rfl]
    rw [hser]
    have hmeq : '=' ∉ s ++ ':' :: "deny".data := by
      intro hmem
      rcases List.mem_append.mp hmem with hm | hm
      · exact hne hm
      · exact absurd hm (by decide)
    have hmcol : ':' ∈ s ++ ':' :: "deny".data := by
      exact List.mem_append.mpr (Or.inr (by decide))
    have hbr2 : rlDetect (s ++ ':' :: "deny".data) =
        Except.ok ⟨s, "deny".data, "jail".data⟩ := by
      rw [rlDetect, if_neg (fun hand => hand.2 hmcol), if_neg hmeq,
        splitOnce_eq s "deny".data ':' hcolon]
    rw [_parse_resource_limit, hbr2, rlCheckEmpty,
      if_neg (by simp [hsne])]
    rw [hv]

/-- Witness for C8 at the legacy input `"128M:deny"`. -/
theorem parse_serialize_roundtrip_witness :
    _parse_resource_limit (serializeRL ⟨"128M".data, "deny".data, "jail".data⟩) =
      Except.ok ⟨"128M".data, "deny".data, "jail".data⟩ :=
  (parse_serialize_roundtrip "128M:deny".data (by decide)
    ⟨"128M".data, "deny".data, "jail".data⟩ rfl).1

/- ### Snapshot timestamp helper
Model of `append_snapshot_datetime` from `src/iocage/lib/ZFS.py` (the same
format string appears in `ReleaseGenerator._append_datetime` in
`src/libiocage/lib/Release.py`).  The code formats
`datetime.datetime.utcnow()` with `"%Y%m%d%H%I%S.%f"`. -/

/-- A UTC wall-clock instant as `datetime.datetime.utcnow()` exposes it. -/
structure UTCTime where
  year : Nat
  month : Nat
  day : Nat
  hour : Nat
  minute : Nat
  second : Nat
  microsecond : Nat
deriving DecidableEq

/-- Zero-pad a number to `w` digits, as the strftime numeric directives do. -/
def padNum (w : Nat) (n : Nat) : String :=
  let s := toString n
  String.mk (List.replicate (w - s.length) '0') ++ s

/-- strftime `%I`: the hour on the 12-hour clock, in `1..12`. -/
def hour12 (h : Nat) : Nat :=
  if h % 12 = 0 then 12 else h % 12

/-- Rendering of `now.strftime("%Y%m%d%H%I%S.%f")`: the format string the code passes —
year, month, day, 24-hour hour, then `%I` (the 12-hour-clock hour), second,
and microseconds.  No minute directive occurs in it. -/
def strftimeCodeFormat (t : UTCTime) : String :=
  padNum 4 t.year ++ padNum 2 t.month ++ padNum 2 t.day ++ padNum 2 t.hour
    ++ padNum 2 (hour12 t.hour) ++ padNum 2 t.second ++ "." ++ padNum 6 t.microsecond

/-- Model of `append_snapshot_datetime`: appends the formatted current UTC time to the
label. -/
def append_snapshot_datetime (now : UTCTime) (text : String) : String :=
  text ++ strftimeCodeFormat now

/-- Modelled from the spec: the claimed timestamp format
`YYYYMMDDhhmmss.ffffff` — year, month, day, hour, minute, second,
microseconds. -/
def specTimestampFormat (t : UTCTime) : String :=
  padNum 4 t.year ++ padNum 2 t.month ++ padNum 2 t.day ++ padNum 2 t.hour
    ++ padNum 2 t.minute ++ padNum 2 t.second ++ "." ++ padNum 6 t.microsecond

/-- C6: at the UTC instant 2017-10-12 13:37:05.123456 the code's
`"%Y%m%d%H%I%S.%f"` format yields `20171012130105.123456` — the 12-hour-clock
hour (`%I` = 01) stands where the spec's minute (37) belongs — so the result
differs from the claimed `YYYYMMDDhhmmss.ffffff` rendering. -/
theorem append_snapshot_datetime_bug :
    append_snapshot_datetime ⟨2017, 10, 12, 13, 37, 5, 123456⟩ "lbl@" =
      "lbl@20171012130105.123456"
  ∧ specTimestampFormat ⟨2017, 10, 12, 13, 37, 5, 123456⟩ = "20171012133705.123456"
  ∧ append_snapshot_datetime ⟨2017, 10, 12, 13, 37, 5, 123456⟩ "lbl@" ≠
      "lbl@" ++ specTimestampFormat ⟨2017, 10, 12, 13, 37, 5, 123456⟩ := by
  refine ⟨?_, ?_, ?_⟩ <;> decide

/- ### Dataset trees
Model of the libzfs dataset hierarchy as the code in
`src/iocage/lib/ZFS.py` consumes it: a node has a name, a mounted flag
(`mountpoint is not None`), an origin snapshot reference
(`properties["origin"].value`, empty string when the dataset has no origin),
its own snapshots (short names; the full snapshot name is
`<dataset-name>@<short-name>`), and child nodes.  `children_recursive` and
`snapshots_recursive` are modelled as depth-first pre-order enumeration of
the strict descendants.  Backend calls that mutate state are recorded as
`ZAction` entries in an explicit trace. -/

/-- A node of the dataset tree. -/
inductive Dataset where
  | node (name : String) (mounted : Bool) (origin : String)
      (snapshots : List String) (children : List Dataset) : Dataset

/-- The dataset's name. -/
def Dataset.name : Dataset → String
  | .node n _ _ _ _ => n

/-- Whether the dataset is mounted (`mountpoint is not None`). -/
def Dataset.mounted : Dataset → Bool
  | .node _ m _ _ _ => m

/-- The dataset's `properties["origin"].value`; `""` when it has none. -/
def Dataset.origin : Dataset → String
  | .node _ _ o _ _ => o

/-- The short names of the dataset's own snapshots. -/
def Dataset.snapshots : Dataset → List String
  | .node _ _ _ ss _ => ss

/-- The dataset's direct children. -/
def Dataset.children : Dataset → List Dataset
  | .node _ _ _ _ cs => cs

mutual

/-- Depth-first pre-order enumeration of a dataset subtree, the node first. -/
def subtreePre : Dataset → List Dataset
  | Dataset.node n m o ss cs => Dataset.node n m o ss cs :: preForest cs

/-- Depth-first pre-order enumeration of a forest of dataset subtrees. -/
def preForest : List Dataset → List Dataset
  | [] => []
  | c :: rest => subtreePre c ++ preForest rest

end

/-- libzfs `children_recursive` on a dataset: its strict descendants in
depth-first pre-order. -/
def children_recursive (d : Dataset) : List Dataset :=
  preForest d.children

/-- libzfs `snapshots_recursive` on a dataset: the full names of all
snapshots across its subtree. -/
def snapshots_recursive (d : Dataset) : List String :=
  (subtreePre d).flatMap (fun x => x.snapshots.map (fun s => x.name ++ "@" ++ s))

/-- A backend call recorded by an operation of the ZFS layer. -/
inductive ZAction where
  | unmountDs (ds : String) : ZAction
  | deleteSnap (snap : String) : ZAction
  | deleteDs (ds : String) : ZAction
  | snapRecursive (snap : String) : ZAction
  | getOrCreateDs (ds : String) : ZAction
  | cloneSnap (snap : String) (target : String) : ZAction
  | mountDs (ds : String) : ZAction
  | promoteDs (ds : String) : ZAction
deriving DecidableEq

mutual

/-- Model of `ZFS.delete_dataset_recursive`: recursive call for every child (with the
default flags), unmount when mounted, per-node snapshot deletion when
`delete_snapshots`, capture of the non-empty origin when
`delete_origin_snapshot`, the node's own delete, then the captured origin
snapshot's delete. -/
def delete_dataset_recursive (d : Dataset)
    (delete_snapshots : Bool) (delete_origin_snapshot : Bool) : List ZAction :=
  match d with
  | Dataset.node n m o ss cs =>
    deleteChildren cs
    ++ ((if m then [ZAction.unmountDs n] else [])
    ++ ((if delete_snapshots then
          ss.map (fun s => ZAction.deleteSnap (n ++ "@" ++ s)) else [])
    ++ ZAction.deleteDs n
      :: (if delete_origin_snapshot ∧ o ≠ "" then [ZAction.deleteSnap o] else [])))

/-- The `for child in dataset.children` loop of `delete_dataset_recursive`:
each child is deleted by a recursive call with the default flags. -/
def deleteChildren : List Dataset → List ZAction
  | [] => []
  | c :: rest => delete_dataset_recursive c true true ++ deleteChildren rest

end

/- ### Recursive promotion -/

/-- The visit order of `ZFS.promote_dataset`:
`list(reversed(list(dataset.children_recursive))) + [dataset]`. -/
def promoteVisitOrder (d : Dataset) : List Dataset :=
  (children_recursive d).reverse ++ [d]

/-- Modelled from the spec: the external libzfs `promote()` severs a clone's
dependency on its origin snapshot.  The origin state of the world is a map
from dataset name to origin reference; promoting `n` clears `n`'s origin. -/
def promoteSever (st : String → String) (n : String) : String → String :=
  fun m => if m = n then "" else st m

/-- Model of `ZFS.promote_dataset`: promotes every dataset of the visit order in turn
(each `self._promote(child)` call invokes the backend's `promote()`),
transforming the origin state of the world. -/
def promote_dataset (st : String → String) (d : Dataset) : String → String :=
  (promoteVisitOrder d).foldl (fun acc x => promoteSever acc x.name) st

/- ### Snapshot-and-clone -/

/-- The failure modes of `ZFS.clone_dataset` that the model distinguishes:
`DatasetExists` for a pre-existing target without `delete_existing`, and the
`ZFSException` that `get_snapshot` raises for a missing snapshot name. -/
inductive CloneErr where
  | datasetExists : CloneErr
  | snapshotNotFound (name : String) : CloneErr
deriving DecidableEq

/-- Python `str.endswith`, on the character lists of the two strings. -/
def strEndsWith (s suf : String) : Bool :=
  suf.data.isSuffixOf s.data

/-- Python `text.strip("/")`: removes leading and trailing slashes. -/
def stripSlashes (s : String) : String :=
  String.mk (((s.data.dropWhile (fun c => c = '/')).reverse.dropWhile
    (fun c => c = '/')).reverse)

/-- Model of `"/".join(target.split("/")[:-1])` from `ZFS._clone_and_mount`. -/
def parentDatasetName (target : String) : String :=
  String.intercalate "/" (target.splitOn "/").dropLast

/-- Model of `ZFS._clone_and_mount`: ensure the parent dataset exists, clone the
snapshot to the target and mount it. -/
def _clone_and_mount (snap target : String) : List ZAction :=
  [ZAction.getOrCreateDs (parentDatasetName target),
   ZAction.cloneSnap snap target,
   ZAction.mountDs target]

/-- The `for dataset in [source] + source.children_recursive` deduplication
loop of `clone_dataset`: `get_snapshot` each dataset's snapshot named
`snapshot_name` and delete it; a missing snapshot raises, aborting the loop
with the deletions made so far kept. -/
def deleteSnapshotsLoop (dss : List Dataset) (snap : String) :
    List ZAction × Option CloneErr :=
  match dss with
  | [] => ([], none)
  | d :: rest =>
    if snap ∈ d.snapshots then
      match deleteSnapshotsLoop rest snap with
      | (tr, e) => (ZAction.deleteSnap (d.name ++ "@" ++ snap) :: tr, e)
    else ([], some (CloneErr.snapshotNotFound (d.name ++ "@" ++ snap)))

/-- Stages of `clone_dataset` after the existing-target handling: snapshot
deduplication over the source subtree, the recursive snapshot, the clone of
the source, and the per-descendant clones. -/
def cloneStages (source : Dataset) (target snapshot_name : String) :
    List ZAction × Option CloneErr :=
  let existing_snapshots := (snapshots_recursive source).filter
    (fun x => strEndsWith x ("@" ++ snapshot_name))
  let step2 : List ZAction × Option CloneErr :=
    if existing_snapshots.length > 0 then
      deleteSnapshotsLoop (source :: children_recursive source) snapshot_name
    else ([], none)
  match step2 with
  | (tr2, some e) => (tr2, some e)
  | (tr2, none) =>
    let full := source.name ++ "@" ++ snapshot_name
    (tr2 ++ ZAction.snapRecursive full :: (_clone_and_mount full target
      ++ (children_recursive source).flatMap (fun d =>
        _clone_and_mount (d.name ++ "@" ++ snapshot_name)
          (target ++ "/" ++ stripSlashes (d.name.drop source.name.length)))),
     none)

/-- Model of `ZFS.clone_dataset`: `existingTarget` abstracts the `get_dataset(target)`
probe — `none` when the lookup raises `ZFSException` (no such dataset),
`some mounted` when the target exists with the given mount state.  A
pre-existing target fails with `DatasetExists` unless `delete_existing`, in
which case it is unmounted (when mounted) and deleted before the snapshot
and clone stages run. -/
def clone_dataset (existingTarget : Option Bool) (source : Dataset)
    (target snapshot_name : String) (delete_existing : Bool) :
    List ZAction × Option CloneErr :=
  match existingTarget with
  | none => cloneStages source target snapshot_name
  | some mounted =>
    if delete_existing = false then ([], some CloneErr.datasetExists)
    else
      match cloneStages source target snapshot_name with
      | (tr, e) =>
        ((if mounted then [ZAction.unmountDs target] else [])
          ++ ZAction.deleteDs target :: tr, e)

/- ### Ordering facts about recursive deletion -/

theorem delete_head_mem (d : Dataset) :
    ZAction.deleteDs d.name ∈ delete_dataset_recursive d true true
  ∧ (∀ s ∈ d.snapshots,
      ZAction.deleteSnap (d.name ++ "@" ++ s) ∈ delete_dataset_recursive d true true)
  ∧ (d.origin ≠ "" →
      ZAction.deleteSnap d.origin ∈ delete_dataset_recursive d true true) := by
  match d with
  | Dataset.node n m o ss cs =>
    simp only [Dataset.name, Dataset.snapshots, Dataset.origin]
    rw [delete_dataset_recursive]
    refine ⟨?_, ?_, ?_⟩
    · exact List.mem_append.mpr (Or.inr (List.mem_append.mpr (Or.inr
        (List.mem_append.mpr (Or.inr (List.mem_cons_self _ _))))))
    · intro s hs
      refine List.mem_append.mpr (Or.inr (List.mem_append.mpr (Or.inr
        (List.mem_append.mpr (Or.inl ?_)))))
      rw [if_pos rfl]
      exact List.mem_map.mpr ⟨s, hs, rfl⟩
    · intro ho
      refine List.mem_append.mpr (Or.inr (List.mem_append.mpr (Or.inr
        (List.mem_append.mpr (Or.inr (List.mem_cons.mpr (Or.inr ?_)))))))
      rw [if_pos ⟨rfl, ho⟩]
      exact List.mem_singleton.mpr rfl

theorem deleteRec_sublist_of_mem : ∀ (cs : List Dataset) (x : Dataset),
    x ∈ preForest cs →
    List.Sublist (delete_dataset_recursive x true true) (deleteChildren cs)
  | [], x, hx => by
    rw [preForest] at hx
    exact absurd hx (List.not_mem_nil x)
  | Dataset.node n m o ss cc :: rest, x, hx => by
    rw [preForest] at hx
    rw [deleteChildren]
    rcases List.mem_append.mp hx with h | h
    · rw [subtreePre] at h
      rcases List.mem_cons.mp h with h1 | h2
      · rw [h1]
        exact List.sublist_append_left _ _
      · have ih := deleteRec_sublist_of_mem cc x h2
        have hpre : List.Sublist (deleteChildren cc)
            (delete_dataset_recursive (Dataset.node n m o ss cc) true true) := by
          rw [delete_dataset_recursive]
          exact List.sublist_append_left _ _
        exact (ih.trans hpre).trans (List.sublist_append_left _ _)
    · exact (deleteRec_sublist_of_mem rest x h).trans (List.sublist_append_right _ _)

/-- C2: ordering of `delete_dataset_recursive` — the recursive child
deletions form a prefix of the trace (depth-first: every descendant's delete
precedes the node's own delete); a mounted node is unmounted before its
delete; with `delete_snapshots` each of the node's own snapshots is deleted
before the node; with `delete_origin_snapshot` a non-empty origin snapshot
is deleted only after the node itself; an empty origin reference skips the
origin-snapshot deletion entirely. -/
theorem delete_dataset_recursive_order (d : Dataset) (ds dos : Bool) :
    (∃ t, delete_dataset_recursive d ds dos = deleteChildren d.children ++ t)
  ∧ (∀ x ∈ children_recursive d,
      List.Sublist [ZAction.deleteDs x.name, ZAction.deleteDs d.name]
        (delete_dataset_recursive d ds dos))
  ∧ (d.mounted = true →
      List.Sublist [ZAction.unmountDs d.name, ZAction.deleteDs d.name]
        (delete_dataset_recursive d ds dos))
  ∧ (ds = true → ∀ s ∈ d.snapshots,
      List.Sublist [ZAction.deleteSnap (d.name ++ "@" ++ s), ZAction.deleteDs d.name]
        (delete_dataset_recursive d ds dos))
  ∧ (dos = true → d.origin ≠ "" →
      List.Sublist [ZAction.deleteDs d.name, ZAction.deleteSnap d.origin]
        (delete_dataset_recursive d ds dos))
  ∧ (d.origin = "" →
      delete_dataset_recursive d ds dos = delete_dataset_recursive d ds false) := by
  match d with
  | Dataset.node n m o ss cs =>
    simp only [Dataset.name, Dataset.mounted, Dataset.origin, Dataset.snapshots,
      Dataset.children, children_recursive]
    refine ⟨?_, ?_, ?_, ?_, ?_, ?_⟩
    · rw [delete_dataset_recursive]
      exact ⟨_, rfl⟩
    · intro x hx
      have hmem : ZAction.deleteDs x.name ∈ deleteChildren cs :=
        (deleteRec_sublist_of_mem cs x hx).subset (delete_head_mem x).1
      rw [delete_dataset_recursive]
      have hd : ZAction.deleteDs n ∈
          ((if m then [ZAction.unmountDs n] else [])
          ++ ((if ds then ss.map (fun s => ZAction.deleteSnap (n ++ "@" ++ s)) else [])
          ++ ZAction.deleteDs n
            :: (if dos ∧ o ≠ "" then [ZAction.deleteSnap o] else []))) :=
        List.mem_append.mpr (Or.inr (List.mem_append.mpr (Or.inr
          (List.mem_cons_self _ _))))
      exact List.Sublist.append (List.singleton_sublist.mpr hmem)
        (List.singleton_sublist.mpr hd)
    · intro hm
      rw [delete_dataset_recursive, hm, if_pos rfl]
      have hd : ZAction.deleteDs n ∈
          ((if ds then ss.map (fun s => ZAction.deleteSnap (n ++ "@" ++ s)) else [])
          ++ ZAction.deleteDs n
            :: (if dos ∧ o ≠ "" then [ZAction.deleteSnap o] else [])) :=
        List.mem_append.mpr (Or.inr (List.mem_cons_self _ _))
      exact (List.Sublist.cons₂ _ (List.singleton_sublist.mpr hd)).trans
        (List.sublist_append_right _ _)
    · intro hds s hs
      rw [delete_dataset_recursive, hds, if_pos rfl]
      have hsnap : ZAction.deleteSnap (n ++ "@" ++ s) ∈
          ss.map (fun s2 => ZAction.deleteSnap (n ++ "@" ++ s2)) :=
        List.mem_map.mpr ⟨s, hs, rfl⟩
      have hd : ZAction.deleteDs n ∈ ZAction.deleteDs n
          :: (if dos ∧ o ≠ "" then [ZAction.deleteSnap o] else []) :=
        List.mem_cons_self _ _
      exact ((List.Sublist.append (List.singleton_sublist.mpr hsnap)
        (List.singleton_sublist.mpr hd)).trans
        (List.sublist_append_right _ _)).trans (List.sublist_append_right _ _)
    · intro hdos ho
      rw [delete_dataset_recursive, hdos]
      have h1 : List.Sublist [ZAction.deleteDs n, ZAction.deleteSnap o]
          (ZAction.deleteDs n
            :: (if (true : Bool) ∧ o ≠ "" then [ZAction.deleteSnap o] else [])) := by
        rw [if_pos ⟨rfl, ho⟩]
      exact ((h1.trans (List.sublist_append_right _ _)).trans
        (List.sublist_append_right _ _)).trans (List.sublist_append_right _ _)
    · intro ho
      rw [delete_dataset_recursive, delete_dataset_recursive, ho]
      simp

/-- Witness for C2 at a concrete mounted dataset with a snapshot, an origin
reference and one child. -/
theorem delete_dataset_recursive_order_witness :
    List.Sublist [ZAction.deleteDs "p/d", ZAction.deleteSnap "p/t@base"]
      (delete_dataset_recursive
        (Dataset.node "p/d" true "p/t@base" ["s1"]
          [Dataset.node "p/d/c" true "" [] []]) true true) :=
  (delete_dataset_recursive_order
    (Dataset.node "p/d" true "p/t@base" ["s1"]
      [Dataset.node "p/d/c" true "" [] []]) true true).2.2.2.2.1 rfl
    (by simp [Dataset.origin])

/-- C9: the flags of `delete_dataset_recursive` apply only to the named root
node — every strict descendant is processed by a recursive call with the
default flags, so for any caller-supplied flag values every descendant's own
delete, its snapshot deletes and its origin-snapshot delete (when its origin
reference is non-empty) all occur in the trace. -/
theorem delete_descendants_default_flags (d : Dataset) (x : Dataset)
    (hx : x ∈ children_recursive d)
    (delete_snapshots delete_origin_snapshot : Bool) :
    ZAction.deleteDs x.name ∈
      delete_dataset_recursive d delete_snapshots delete_origin_snapshot
  ∧ (∀ s ∈ x.snapshots, ZAction.deleteSnap (x.name ++ "@" ++ s) ∈
      delete_dataset_recursive d delete_snapshots delete_origin_snapshot)
  ∧ (x.origin ≠ "" → ZAction.deleteSnap x.origin ∈
      delete_dataset_recursive d delete_snapshots delete_origin_snapshot) := by
  match d with
  | Dataset.node n m o ss cs =>
    simp only [children_recursive, Dataset.children] at hx
    have hsub : List.Sublist (delete_dataset_recursive x true true)
        (delete_dataset_recursive (Dataset.node n m o ss cs)
          delete_snapshots delete_origin_snapshot) := by
      rw [delete_dataset_recursive]
      exact (deleteRec_sublist_of_mem cs x hx).trans (List.sublist_append_left _ _)
    obtain ⟨h1, h2, h3⟩ := delete_head_mem x
    exact ⟨hsub.subset h1, fun s hs => hsub.subset (h2 s hs),
      fun ho => hsub.subset (h3 ho)⟩

/-- Witness for C9: with both flags `false` at the root, a grandchild's
delete, snapshot delete and origin-snapshot delete still occur. -/
theorem delete_descendants_default_flags_witness :
    ZAction.deleteDs "p/d/c/g" ∈
      delete_dataset_recursive
        (Dataset.node "p/d" false "" []
          [Dataset.node "p/d/c" false "" []
            [Dataset.node "p/d/c/g" false "p/t@o" ["s2"] []]]) false false :=
  (delete_descendants_default_flags
    (Dataset.node "p/d" false "" []
      [Dataset.node "p/d/c" false "" []
        [Dataset.node "p/d/c/g" false "p/t@o" ["s2"] []]])
    (Dataset.node "p/d/c/g" false "p/t@o" ["s2"] [])
    (by simp [children_recursive, Dataset.children, preForest, subtreePre])
    false false).1

/- ### Facts about recursive promotion -/

theorem subtreePre_eq (d : Dataset) : subtreePre d = d :: children_recursive d := by
  match d with
  | Dataset.node n m o ss cs =>
    rw [subtreePre, children_recursive, Dataset.children]

theorem subtree_sublist_of_mem : ∀ (cs : List Dataset) (x : Dataset),
    x ∈ preForest cs → List.Sublist (subtreePre x) (preForest cs)
  | [], x, hx => by
    rw [preForest] at hx
    exact absurd hx (List.not_mem_nil x)
  | Dataset.node n m o ss cc :: rest, x, hx => by
    rw [preForest] at hx
    rw [preForest]
    rcases List.mem_append.mp hx with h | h
    · rw [subtreePre] at h
      rcases List.mem_cons.mp h with h1 | h2
      · rw [h1]
        exact List.sublist_append_left _ _
      · have ih := subtree_sublist_of_mem cc x h2
        have hpre : List.Sublist (preForest cc)
            (subtreePre (Dataset.node n m o ss cc)) := by
          rw [subtreePre]
          exact (List.sublist_cons_self _ _)
        exact (ih.trans hpre).trans (List.sublist_append_left _ _)
    · exact (subtree_sublist_of_mem rest x h).trans (List.sublist_append_right _ _)

theorem foldl_sever_preserved (L : List Dataset) (st : String → String)
    (nm : String) (h : st nm = "") :
    (L.foldl (fun acc x => promoteSever acc x.name) st) nm = "" := by
  induction L generalizing st with
  | nil => exact h
  | cons c rest ih =>
    refine ih (promoteSever st c.name) ?_
    rw [promoteSever]
    by_cases hc : nm = c.name
    · rw [if_pos hc]
    · rw [if_neg hc]
      exact h

theorem foldl_sever_clears (L : List Dataset) (st : String → String)
    (nm : String) (h : nm ∈ L.map Dataset.name) :
    (L.foldl (fun acc x => promoteSever acc x.name) st) nm = "" := by
  induction L generalizing st with
  | nil => simp at h
  | cons c rest ih =>
    rw [List.map_cons] at h
    rcases List.mem_cons.mp h with h1 | h2
    · refine foldl_sever_preserved rest (promoteSever st c.name) nm ?_
      rw [promoteSever, if_pos h1]
    · exact ih (promoteSever st c.name) h2

/-- C3: `promote_dataset` visits the subtree in reverse depth order — for
every pair of subtree nodes where `x` is a strict descendant of `y`, `x` is
visited before `y`, and the named node itself comes last — and promotes each
visited dataset, so that afterwards no dataset of the subtree retains a
non-empty origin reference (in any initial origin state). -/
theorem promote_dataset_order (d : Dataset) (st : String → String) :
    (promoteVisitOrder d).getLast? = some d
  ∧ (∀ y ∈ subtreePre d, ∀ x ∈ children_recursive y,
      List.Sublist [x, y] (promoteVisitOrder d))
  ∧ (∀ x ∈ subtreePre d, promote_dataset st d x.name = "") := by
  refine ⟨?_, ?_, ?_⟩
  · rw [promoteVisitOrder]
    simp
  · intro y hy x hx
    rw [subtreePre_eq] at hy
    have hyx : List.Sublist [y, x] (subtreePre y) := by
      rw [subtreePre_eq y]
      exact List.Sublist.cons₂ _ (List.singleton_sublist.mpr hx)
    rcases List.mem_cons.mp hy with h1 | h2
    · -- y is the named node itself: x comes from the reversed descendants
      rw [h1] at hx ⊢
      rw [promoteVisitOrder]
      have hxr : x ∈ (children_recursive d).reverse := List.mem_reverse.mpr hx
      exact List.Sublist.append (List.singleton_sublist.mpr hxr)
        (List.Sublist.refl [d])
    · -- y is a strict descendant: reverse the pre-order [y, x] occurrence
      have hsub : List.Sublist [y, x] (children_recursive d) :=
        hyx.trans (subtree_sublist_of_mem d.children y
          (by rw [children_recursive] at h2; exact h2))
      have hrev : List.Sublist [x, y] (children_recursive d).reverse := by
        have := hsub.reverse
        simpa using this
      rw [promoteVisitOrder]
      exact hrev.trans (List.sublist_append_left _ _)
  · intro x hx
    rw [promote_dataset]
    refine foldl_sever_clears _ st x.name ?_
    rw [subtreePre_eq] at hx
    rw [promoteVisitOrder]
    rcases List.mem_cons.mp hx with h1 | h2
    · rw [h1]
      simp
    · refine List.mem_map.mpr ⟨x, ?_, rfl⟩
      exact List.mem_append.mpr (Or.inl (List.mem_reverse.mpr h2))

/-- Witness for C3 on the spec's three-level chain A→B→C, each carrying an
origin reference: after `promote_dataset` none of them retains one. -/
theorem promote_dataset_order_witness :
    promote_dataset (fun nm =>
        if nm = "p/A" then "p/tA@s" else
        if nm = "p/A/B" then "p/tB@s" else
        if nm = "p/A/B/C" then "p/tC@s" else "")
      (Dataset.node "p/A" true "p/tA@s" []
        [Dataset.node "p/A/B" true "p/tB@s" []
          [Dataset.node "p/A/B/C" true "p/tC@s" [] []]])
      "p/A/B" = "" :=
  (promote_dataset_order
    (Dataset.node "p/A" true "p/tA@s" []
      [Dataset.node "p/A/B" true "p/tB@s" []
        [Dataset.node "p/A/B/C" true "p/tC@s" [] []]])
    (fun nm =>
        if nm = "p/A" then "p/tA@s" else
        if nm = "p/A/B" then "p/tB@s" else
        if nm = "p/A/B/C" then "p/tC@s" else "")).2.2
    (Dataset.node "p/A/B" true "p/tB@s" []
      [Dataset.node "p/A/B/C" true "p/tC@s" [] []])
    (by simp [subtreePre, preForest])

/- ### Facts about snapshot-and-clone -/

/-- C4: when the clone target already exists, `clone_dataset` fails with
`DatasetExists` before doing anything unless `delete_existing` is set, in
which case the existing target's unmount (when mounted) and delete are the
first actions of the trace, before any snapshot or clone step. -/
theorem clone_dataset_existing_target (source : Dataset)
    (target snapshot_name : String) (mounted : Bool) :
    clone_dataset (some mounted) source target snapshot_name false =
      ([], some CloneErr.datasetExists)
  ∧ (∃ t, (clone_dataset (some mounted) source target snapshot_name true).1 =
      (if mounted then [ZAction.unmountDs target] else [])
        ++ ZAction.deleteDs target :: t) := by
  constructor
  · rw [clone_dataset, if_pos rfl]
  · match h : cloneStages source target snapshot_name with
    | (tr, e) =>
      refine ⟨tr, ?_⟩
      rw [clone_dataset, if_neg (by simp), h]

theorem deleteSnapshotsLoop_spec (L : List Dataset) (snap : String) :
    (deleteSnapshotsLoop L snap).1 =
      (L.takeWhile (fun d => decide (snap ∈ d.snapshots))).map
        (fun d => ZAction.deleteSnap (d.name ++ "@" ++ snap))
  ∧ ((deleteSnapshotsLoop L snap).2 = none ↔ ∀ d ∈ L, snap ∈ d.snapshots) := by
  induction L with
  | nil => simp [deleteSnapshotsLoop]
  | cons c rest ih =>
    by_cases hc : snap ∈ c.snapshots
    · constructor
      · rw [deleteSnapshotsLoop, if_pos hc]
        match h : deleteSnapshotsLoop rest snap with
        | (tr, e) =>
          rw [List.takeWhile_cons, if_pos (by simpa using hc), List.map_cons]
          have h1 := ih.1
          rw [h] at h1
          simpa using h1
      · rw [deleteSnapshotsLoop, if_pos hc]
        match h : deleteSnapshotsLoop rest snap with
        | (tr, e) =>
          have h2 := ih.2
          rw [h] at h2
          simpa [hc] using h2
    · constructor
      · rw [deleteSnapshotsLoop, if_neg hc,
          List.takeWhile_cons, if_neg (by simpa using hc)]
        rfl
      · rw [deleteSnapshotsLoop, if_neg hc]
        constructor
        · intro hnone
          exact absurd hnone (by simp)
        · intro hall
          exact absurd (hall c (List.mem_cons_self _ _)) hc

theorem snapshots_recursive_mem (source : Dataset) (d1 : Dataset)
    (h1 : d1 ∈ subtreePre source) (snap : String) (hs1 : snap ∈ d1.snapshots) :
    (d1.name ++ "@" ++ snap) ∈ snapshots_recursive source := by
  rw [snapshots_recursive]
  exact List.mem_flatMap.mpr ⟨d1, h1, List.mem_map.mpr ⟨snap, hs1, rfl⟩⟩

theorem strEndsWith_append (x suf : String) : strEndsWith (x ++ suf) suf = true := by
  rw [strEndsWith, String.data_append]
  simp [List.isSuffixOf]

theorem cloneFilter_pos (source : Dataset) (snap : String) (d1 : Dataset)
    (h1 : d1 ∈ subtreePre source) (hs1 : snap ∈ d1.snapshots) :
    0 < ((snapshots_recursive source).filter
      (fun x => strEndsWith x ("@" ++ snap))).length := by
  have hmem : (d1.name ++ "@" ++ snap) ∈ (snapshots_recursive source).filter
      (fun x => strEndsWith x ("@" ++ snap)) := by
    refine List.mem_filter.mpr ⟨snapshots_recursive_mem source d1 h1 snap hs1, ?_⟩
    have hassoc : d1.name ++ "@" ++ snap = d1.name ++ ("@" ++ snap) := by
      rw [String.append_assoc]
    rw [hassoc]
    exact strEndsWith_append _ _
  exact List.length_pos.mpr (List.ne_nil_of_mem hmem)

/-- C10: when a snapshot ending in `@snapshot_name` exists somewhere in the
source subtree, `clone_dataset` looks up `<dataset>@snapshot_name` on the
source and every recursive child in order; if some dataset of the subtree
lacks it, the lookup raises and the clone fails — the trace holds only the
snapshot deletions made up to the first missing one, and no recursive
snapshot or clone step ever runs. -/
theorem clone_dataset_snapshot_dedup (source : Dataset) (target snap : String)
    (delete_existing : Bool)
    (d1 : Dataset) (h1 : d1 ∈ subtreePre source) (hs1 : snap ∈ d1.snapshots)
    (d2 : Dataset) (h2 : d2 ∈ subtreePre source) (hs2 : snap ∉ d2.snapshots) :
    (clone_dataset none source target snap delete_existing).2.isSome = true
  ∧ (clone_dataset none source target snap delete_existing).1 =
      ((source :: children_recursive source).takeWhile
        (fun d => decide (snap ∈ d.snapshots))).map
        (fun d => ZAction.deleteSnap (d.name ++ "@" ++ snap))
  ∧ (∀ s, ZAction.snapRecursive s ∉
      (clone_dataset none source target snap delete_existing).1)
  ∧ (∀ s t2, ZAction.cloneSnap s t2 ∉
      (clone_dataset none source target snap delete_existing).1) := by
  have hpos : 0 < ((snapshots_recursive source).filter
      (fun x => strEndsWith x ("@" ++ snap))).length :=
    cloneFilter_pos source snap d1 h1 hs1
  have hnotall : ¬ ∀ x ∈ source :: children_recursive source, snap ∈ x.snapshots := by
    intro hall
    have hd2 : d2 ∈ source :: children_recursive source := by
      rw [← subtreePre_eq]
      exact h2
    exact hs2 (hall d2 hd2)
  obtain ⟨htr, hiff⟩ := deleteSnapshotsLoop_spec (source :: children_recursive source) snap
  have herr : (deleteSnapshotsLoop (source :: children_recursive source) snap).2 ≠ none := by
    intro h0
    exact hnotall (hiff.mp h0)
  match hL : deleteSnapshotsLoop (source :: children_recursive source) snap with
  | (tr, none) =>
    rw [hL] at herr
    exact absurd rfl herr
  | (tr, some e) =>
    rw [hL] at htr
    have hclone : clone_dataset none source target snap delete_existing = (tr, some e) := by
      rw [clone_dataset]
      simp only [cloneStages]
      rw [if_pos hpos, hL]
    rw [hclone]
    refine ⟨rfl, htr, ?_, ?_⟩
    · intro s hmem
      have htr2 : tr = ((source :: children_recursive source).takeWhile
          (fun d => decide (snap ∈ d.snapshots))).map
          (fun d => ZAction.deleteSnap (d.name ++ "@" ++ snap)) := htr
      have hmem2 : ZAction.snapRecursive s ∈ tr := hmem
      rw [htr2] at hmem2
      obtain ⟨d0, _, heq⟩ := List.mem_map.mp hmem2
      exact absurd heq (by simp)
    · intro s t2 hmem
      have htr2 : tr = ((source :: children_recursive source).takeWhile
          (fun d => decide (snap ∈ d.snapshots))).map
          (fun d => ZAction.deleteSnap (d.name ++ "@" ++ snap)) := htr
      have hmem2 : ZAction.cloneSnap s t2 ∈ tr := hmem
      rw [htr2] at hmem2
      obtain ⟨d0, _, heq⟩ := List.mem_map.mp hmem2
      exact absurd heq (by simp)

/-- Witness for C10: a source with the snapshot `snap` present on itself but
missing on its child — the clone fails. -/
theorem clone_dataset_snapshot_dedup_witness :
    (clone_dataset none
      (Dataset.node "p/s" true "" ["snap"]
        [Dataset.node "p/s/c" true "" [] []])
      "p/t" "snap" false).2.isSome = true :=
  (clone_dataset_snapshot_dedup
    (Dataset.node "p/s" true "" ["snap"] [Dataset.node "p/s/c" true "" [] []])
    "p/t" "snap" false
    (Dataset.node "p/s" true "" ["snap"] [Dataset.node "p/s/c" true "" [] []])
    (by simp [subtreePre, preForest]) (by simp [Dataset.snapshots])
    (Dataset.node "p/s/c" true "" [] [])
    (by simp [subtreePre, preForest]) (by simp [Dataset.snapshots])).1

/- ### Legacy-jail migration batch driver
Model of `_migrate_jails` from `src/ioc_cli/migrate.py`.  The generator
yields transitions of one `JailMigrationEvent` per jail.  The external steps
(duplicate-target probe, `clone_from_jail`, `save`, `promote`, `destroy` of
the original, `rename`) are abstracted by per-jail outcome fields; an
outcome is either success, a raised `IocException`, or a raised exception of
any other class.  Only `IocException` raised inside the `try` block is
caught; anything else propagates out of the generator, ending the batch. -/

/-- The class of an exception raised by a migration step. -/
inductive MExc where
  | ioc (msg : String) : MExc
  | other (msg : String) : MExc
deriving DecidableEq

/-- Outcome of one external step of the migration of one jail. -/
inductive StepOutcome where
  | ok : StepOutcome
  | raised (e : MExc) : StepOutcome
deriving DecidableEq

/-- A jail as `_migrate_jails` consumes it: its event identifier
(`jail.full_name`), `config.legacy`, `running`, the tag and its
`validate_name` verdict, `humanreadable_name`, the `hash(name)` value used
for the temporary name, whether the migration target jail already exists,
and the outcomes of the external steps. -/
structure MJail where
  fullName : String
  legacy : Bool
  running : Bool
  tag : String
  tagValid : Bool
  hname : String
  hashValue : Nat
  newJailExists : Bool
  cloneStep : StepOutcome
  saveStep : StepOutcome
  promoteStep : StepOutcome
  destroyStep : StepOutcome
  renameStep : StepOutcome

/-- The terminal and non-terminal event states yielded by the driver. -/
inductive EvState where
  | running : EvState
  | skipped : EvState
  | failed (e : MExc) : EvState
  | done : EvState
deriving DecidableEq

/-- One yielded event transition: the event's identifier and its state. -/
structure EvOut where
  id : String
  state : EvState
deriving DecidableEq

/-- A mutation performed by the migration steps of one jail (sub-event
detail is abstracted away; what matters is that the step ran). -/
inductive MigAction where
  | cloneJail (nm : String) : MigAction
  | saveConfig (nm : String) : MigAction
  | promoteJail (nm : String) : MigAction
  | destroyOriginal (nm : String) : MigAction
  | renameJail (nm : String) (dst : String) : MigAction
deriving DecidableEq

/-- Output of the driver: the yielded event transitions, the mutations
performed, and the exception that escaped the generator, if any. -/
structure MigOutput where
  events : List EvOut
  actions : List MigAction
  escaped : Option MExc
deriving DecidableEq

/-- The `name` computed for a jail: the tag when it validates, otherwise the
human-readable name. -/
def MJail.targetName (j : MJail) : String :=
  if j.tagValid then j.tag else j.hname

/-- The `temporary_name`: the tag when it validates, otherwise
`"import-" + str(hash(name) % (1 << 32))`. -/
def MJail.temporaryName (j : MJail) : String :=
  if j.tagValid then j.tag else "import-" ++ toString (j.hashValue % (1 <<< 32))

/-- The body of the `try` block for one jail: the duplicate-target check
(raising `JailAlreadyExists`, an `IocException`), then `clone_from_jail`,
`save`, `promote` and the destroy of the original legacy jail, each aborting
the block when it raises.  Returns the mutations performed and the raised
exception, if any. -/
def migTryBlock (j : MJail) : List MigAction × Option MExc :=
  if j.newJailExists then ([], some (MExc.ioc "JailAlreadyExists"))
  else match j.cloneStep with
  | StepOutcome.raised e => ([MigAction.cloneJail j.fullName], some e)
  | StepOutcome.ok => match j.saveStep with
    | StepOutcome.raised e =>
        ([MigAction.cloneJail j.fullName, MigAction.saveConfig j.fullName], some e)
    | StepOutcome.ok => match j.promoteStep with
      | StepOutcome.raised e =>
          ([MigAction.cloneJail j.fullName, MigAction.saveConfig j.fullName,
            MigAction.promoteJail j.fullName], some e)
      | StepOutcome.ok => match j.destroyStep with
        | StepOutcome.raised e =>
            ([MigAction.cloneJail j.fullName, MigAction.saveConfig j.fullName,
              MigAction.promoteJail j.fullName, MigAction.destroyOriginal j.fullName],
             some e)
        | StepOutcome.ok =>
            ([MigAction.cloneJail j.fullName, MigAction.saveConfig j.fullName,
              MigAction.promoteJail j.fullName, MigAction.destroyOriginal j.fullName],
             none)

/-- The migration of one jail: begin event; skip when the config is already
current-format; fail on a running jail; otherwise run the `try` block —
an `IocException` raised there is caught and yielded as a fail event, any
other exception escapes the generator — and then, outside the `try` block,
rename when the temporary name differs from the target name (any exception
there escapes), before the final `end` event. -/
def migrateOne (j : MJail) : MigOutput :=
  let b : EvOut := ⟨j.fullName, EvState.running⟩
  if j.legacy = false then ⟨[b, ⟨j.fullName, EvState.skipped⟩], [], none⟩
  else if j.running = true then
    ⟨[b, ⟨j.fullName, EvState.failed (MExc.ioc "JailAlreadyRunning")⟩], [], none⟩
  else
    match migTryBlock j with
    | (acts, some (MExc.ioc m)) =>
        ⟨[b, ⟨j.fullName, EvState.failed (MExc.ioc m)⟩], acts, none⟩
    | (acts, some (MExc.other m)) => ⟨[b], acts, some (MExc.other m)⟩
    | (acts, none) =>
        if j.targetName ≠ j.temporaryName then
          match j.renameStep with
          | StepOutcome.raised e =>
              ⟨[b], acts ++ [MigAction.renameJail j.temporaryName j.targetName], some e⟩
          | StepOutcome.ok =>
              ⟨[b, ⟨j.fullName, EvState.done⟩],
               acts ++ [MigAction.renameJail j.temporaryName j.targetName], none⟩
        else ⟨[b, ⟨j.fullName, EvState.done⟩], acts, none⟩

/-- Model of `_migrate_jails`: process the batch in order; an exception escaping one
jail's migration ends the whole generator (later jails are never reached),
while a caught failure lets the loop continue. -/
def _migrate_jails (jails : List MJail) : MigOutput :=
  match jails with
  | [] => ⟨[], [], none⟩
  | j :: rest =>
    match migrateOne j with
    | ⟨evs, acts, some e⟩ => ⟨evs, acts, some e⟩
    | ⟨evs, acts, none⟩ =>
      match _migrate_jails rest with
      | ⟨evs2, acts2, e2⟩ => ⟨evs ++ evs2, acts ++ acts2, e2⟩

/-- C1 counterexample: in a two-jail batch where the first jail's
`clone_from_jail` raises an exception that is not an `IocException`, the
exception escapes the generator: no fail event is yielded for the first jail
and the second jail is never processed — the batch is aborted. -/
theorem migrate_batch_abort_counterexample :
    _migrate_jails
      [⟨"j1", true, false, "j1", true, "j1", 0, false,
          StepOutcome.raised (MExc.other "TypeError"), StepOutcome.ok,
          StepOutcome.ok, StepOutcome.ok, StepOutcome.ok⟩,
       ⟨"j2", true, false, "j2", true, "j2", 0, false,
          StepOutcome.ok, StepOutcome.ok, StepOutcome.ok, StepOutcome.ok,
          StepOutcome.ok⟩] =
      ⟨[⟨"j1", EvState.running⟩], [MigAction.cloneJail "j1"],
        some (MExc.other "TypeError")⟩ := by
  decide

/-- C1 (amended): an `IocException` raised inside the guarded block of one
jail's migration (duplicate-target check, clone, save, promote, destroy of
the original) is caught, reported as a fail event carrying the error, and
processing continues with the next jail in the batch. -/
theorem migrate_iocException_caught (j : MJail) (rest : List MJail)
    (hleg : j.legacy = true) (hrun : j.running = false)
    (m : String) (htry : (migTryBlock j).2 = some (MExc.ioc m)) :
    _migrate_jails (j :: rest) =
      ⟨⟨j.fullName, EvState.running⟩ :: ⟨j.fullName, EvState.failed (MExc.ioc m)⟩
          :: (_migrate_jails rest).events,
        (migTryBlock j).1 ++ (_migrate_jails rest).actions,
        (_migrate_jails rest).escaped⟩ := by
  have h1 : migrateOne j =
      ⟨[⟨j.fullName, EvState.running⟩, ⟨j.fullName, EvState.failed (MExc.ioc m)⟩],
        (migTryBlock j).1, none⟩ := by
    rw [migrateOne]
    rw [if_neg (by rw [hleg]; simp), if_neg (by rw [hrun]; simp)]
    match hT : migTryBlock j with
    | (acts, e) =>
      have he : e = some (MExc.ioc m) := by
        rw [hT] at htry
        exact htry
      subst he
      rfl
  rw [_migrate_jails, h1]
  match hR : _migrate_jails rest with
  | ⟨evs2, acts2, e2⟩ => rfl

/-- Witness for the amended C1: a concrete two-jail batch whose first jail
fails with an `IocException` during clone; the second jail is still
processed (its events follow). -/
theorem migrate_iocException_caught_witness :
    _migrate_jails
      [⟨"jA", true, false, "jA", true, "jA", 0, false,
          StepOutcome.raised (MExc.ioc "CloneFailed"), StepOutcome.ok,
          StepOutcome.ok, StepOutcome.ok, StepOutcome.ok⟩,
       ⟨"jB", false, false, "jB", true, "jB", 0, false,
          StepOutcome.ok, StepOutcome.ok, StepOutcome.ok, StepOutcome.ok,
          StepOutcome.ok⟩] =
      ⟨⟨"jA", EvState.running⟩ :: ⟨"jA", EvState.failed (MExc.ioc "CloneFailed")⟩
          :: (_migrate_jails
            [⟨"jB", false, false, "jB", true, "jB", 0, false,
                StepOutcome.ok, StepOutcome.ok, StepOutcome.ok, StepOutcome.ok,
                StepOutcome.ok⟩]).events,
        (migTryBlock
            ⟨"jA", true, false, "jA", true, "jA", 0, false,
              StepOutcome.raised (MExc.ioc "CloneFailed"), StepOutcome.ok,
              StepOutcome.ok, StepOutcome.ok, StepOutcome.ok⟩).1
          ++ (_migrate_jails
            [⟨"jB", false, false, "jB", true, "jB", 0, false,
                StepOutcome.ok, StepOutcome.ok, StepOutcome.ok, StepOutcome.ok,
                StepOutcome.ok⟩]).actions,
        (_migrate_jails
            [⟨"jB", false, false, "jB", true, "jB", 0, false,
                StepOutcome.ok, StepOutcome.ok, StepOutcome.ok, StepOutcome.ok,
                StepOutcome.ok⟩]).escaped⟩ :=
  migrate_iocException_caught
    ⟨"jA", true, false, "jA", true, "jA", 0, false,
        StepOutcome.raised (MExc.ioc "CloneFailed"), StepOutcome.ok,
        StepOutcome.ok, StepOutcome.ok, StepOutcome.ok⟩
    [⟨"jB", false, false, "jB", true, "jB", 0, false,
        StepOutcome.ok, StepOutcome.ok, StepOutcome.ok, StepOutcome.ok,
        StepOutcome.ok⟩]
    rfl rfl "CloneFailed" rfl

/-- C5: a jail whose config is already current-format contributes exactly
the two transitions of one event — `running` then the terminal `skipped` —
performs no dataset mutations, and the batch continues with the remaining
jails. -/
theorem migrate_skips_current_format (j : MJail) (rest : List MJail)
    (h : j.legacy = false) :
    _migrate_jails (j :: rest) =
      ⟨⟨j.fullName, EvState.running⟩ :: ⟨j.fullName, EvState.skipped⟩
          :: (_migrate_jails rest).events,
        (_migrate_jails rest).actions,
        (_migrate_jails rest).escaped⟩ := by
  have h1 : migrateOne j =
      ⟨[⟨j.fullName, EvState.running⟩, ⟨j.fullName, EvState.skipped⟩], [], none⟩ := by
    rw [migrateOne, if_pos h]
  rw [_migrate_jails, h1]
  match hR : _migrate_jails rest with
  | ⟨evs2, acts2, e2⟩ => rfl

/-- Witness for C5: a concrete already-migrated jail in a singleton batch. -/
theorem migrate_skips_current_format_witness :
    _migrate_jails
      [⟨"jS", false, false, "jS", true, "jS", 0, false,
          StepOutcome.ok, StepOutcome.ok, StepOutcome.ok, StepOutcome.ok,
          StepOutcome.ok⟩] =
      ⟨⟨"jS", EvState.running⟩ :: ⟨"jS", EvState.skipped⟩
          :: (_migrate_jails []).events,
        (_migrate_jails []).actions,
        (_migrate_jails []).escaped⟩ :=
  migrate_skips_current_format
    ⟨"jS", false, false, "jS", true, "jS", 0, false,
        StepOutcome.ok, StepOutcome.ok, StepOutcome.ok, StepOutcome.ok,
        StepOutcome.ok⟩ [] rfl

end Ioc
